import Mathlib

/-!
Verification of the letterbox batch image converter (`src/main.go`).

The embedding is shallow: Go strings are lists of characters, Go `float64`
values are exact rationals (no rounding is modelled), Go `int` values are
unbounded integers (the dimensions involved are far from 64-bit overflow),
and file-system and scheduling effects are explicit state passed to the
functions that the source reads it from.
-/

namespace Letterbox

/-! ## Aspect-ratio parsing (`parseAspect`, src/main.go lines 144-162) -/

/-- Model of Go's `strings.Split(s, ":")` on character lists: the substrings
around every occurrence of `':'`.  Like the Go function it always returns at
least one element (splitting the empty string gives `[[]]`). -/
def splitColon : List Char → List (List Char)
  | [] => [[]]
  | c :: cs =>
    if c = ':' then [] :: splitColon cs
    else
      match splitColon cs with
      | [] => [[c]]
      | p :: ps => (c :: p) :: ps

/-- Numeric value of a string of decimal digits, most significant first. -/
def digitsVal (l : List Char) : ℕ :=
  l.foldl (fun a c => 10 * a + (c.toNat - '0'.toNat)) 0

/-- Modelled from Go's `strconv.ParseFloat` (standard library, not part of
this repository), restricted to plain decimal syntax: an optional sign, then
integer digits and/or a `'.'` with fractional digits, then an optional decimal
exponent.  Hexadecimal floats, the `inf`/`nan` forms and digit-separating
underscores are not modelled, and the value returned is the exact rational
value of the literal, with no floating-point rounding.  Returns `none` exactly
when the string is not a valid number of this grammar, as `ParseFloat`
returns a non-nil error. -/
def goParseFloat (s : List Char) : Option ℚ :=
  let sgn : Bool × List Char :=
    match s with
    | '-' :: r => (true, r)
    | '+' :: r => (false, r)
    | _ => (false, s)
  let ip := sgn.2.takeWhile (·.isDigit)
  let s2 := sgn.2.dropWhile (·.isDigit)
  let fr : List Char × List Char :=
    match s2 with
    | '.' :: r => (r.takeWhile (·.isDigit), r.dropWhile (·.isDigit))
    | _ => ([], s2)
  if ip = [] ∧ fr.1 = [] then none
  else
    let mant : ℚ :=
      mkRat ((digitsVal ip : ℤ) * 10 ^ fr.1.length + (digitsVal fr.1 : ℤ)) (10 ^ fr.1.length)
    let mant : ℚ := if sgn.1 then -mant else mant
    match fr.2 with
    | [] => some mant
    | 'e' :: r => goParseExp mant r
    | 'E' :: r => goParseExp mant r
    | _ => none
where
  /-- The exponent part: an optional sign and a nonempty run of digits that
  must reach the end of the string. -/
  goParseExp (mant : ℚ) (r : List Char) : Option ℚ :=
    let esgn : Bool × List Char :=
      match r with
      | '-' :: r2 => (true, r2)
      | '+' :: r2 => (false, r2)
      | _ => (false, r)
    let ed := esgn.2.takeWhile (·.isDigit)
    let rest := esgn.2.dropWhile (·.isDigit)
    if ed = [] ∨ rest ≠ [] then none
    else if esgn.1 then some (mant / 10 ^ digitsVal ed) else some (mant * 10 ^ digitsVal ed)

/-- Outcome of `parseAspect`: a successful `(value, nil)` return, a non-nil
error return from a failed `strconv.ParseFloat`, or a runtime panic. -/
inductive ParseResult where
  | ok (r : ℚ)
  | err
  | panic
deriving DecidableEq

/-- Model of `parseAspect` (src/main.go lines 144-162).  The source splits on
`':'`, parses `parts[0]` (returning the error if that fails), then reads
`parts[1]`: when the split produced a single part that read is an
index-out-of-range panic, not an error return.  After parsing both parts it
swaps them so the larger is the denominator and returns their quotient.
The first match arm for `[]` is unreachable because `strings.Split` always
returns at least one part (`splitColon_ne_nil`). -/
def parseAspect (s : List Char) : ParseResult :=
  match splitColon s with
  | [] => .panic
  | p0 :: rest =>
    match goParseFloat p0 with
    | none => .err
    | some a =>
      match rest with
      | [] => .panic
      | p1 :: _ =>
        match goParseFloat p1 with
        | none => .err
        | some b => if b > a then .ok (a / b) else .ok (b / a)

/-- Whether `parseAspect` returned a value with a nil error. -/
def isOk : ParseResult → Bool
  | .ok _ => true
  | _ => false

theorem splitColon_ne_nil (s : List Char) : splitColon s ≠ [] := by
  induction s with
  | nil => simp [splitColon]
  | cons c cs ih =>
    unfold splitColon
    by_cases hc : c = ':'
    · simp [hc]
    · simp only [hc, if_false]
      cases h : splitColon cs with
      | nil => simp
      | cons p ps => simp

theorem splitColon_eq_singleton_iff {s : List Char} : splitColon s = [s] ↔ ':' ∉ s := by
  induction s with
  | nil => simp [splitColon]
  | cons c cs ih =>
    unfold splitColon
    by_cases hc : c = ':'
    · subst hc
      simp
    · simp only [hc, if_false]
      cases h : splitColon cs with
      | nil => exact absurd h (splitColon_ne_nil cs)
      | cons p ps =>
        rw [h] at ih
        constructor
        · rintro heq
          simp only [List.cons.injEq] at heq
          obtain ⟨⟨-, hp⟩, hps⟩ := heq
          have : ':' ∉ cs := ih.mp (by rw [hp, hps])
          simp [Ne.symm hc, this]
        · intro hnot
          simp only [List.mem_cons, not_or] at hnot
          have := ih.mpr hnot.2
          simp only [List.cons.injEq] at this
          simp [this.1, this.2]

theorem splitColon_two_of_mem {s : List Char} (h : ':' ∈ s) :
    ∃ p0 p1 rest, splitColon s = p0 :: p1 :: rest := by
  induction s with
  | nil => simp at h
  | cons c cs ih =>
    unfold splitColon
    by_cases hc : c = ':'
    · subst hc
      obtain ⟨p, ps, hps⟩ : ∃ p ps, splitColon cs = p :: ps := by
        cases h' : splitColon cs with
        | nil => exact absurd h' (splitColon_ne_nil cs)
        | cons p ps => exact ⟨p, ps, rfl⟩
      exact ⟨[], p, ps, by simp [hps]⟩
    · have hmem : ':' ∈ cs := by
        rcases List.mem_cons.mp h with h1 | h1
        · exact absurd h1.symm hc
        · exact h1
      obtain ⟨p0, p1, rest, hsp⟩ := ih hmem
      exact ⟨c :: p0, p1, rest, by simp [hc, hsp]⟩

theorem splitColon_append {A B : List Char} (hA : ':' ∉ A) :
    splitColon (A ++ ':' :: B) = A :: splitColon B := by
  induction A with
  | nil => simp [splitColon]
  | cons c cs ih =>
    have hc : ¬c = ':' := fun h => hA (by simp [h])
    have hcs : ':' ∉ cs := fun h => hA (List.mem_cons_of_mem _ h)
    rw [List.cons_append]
    conv_lhs => unfold splitColon
    rw [if_neg hc, ih hcs]

/-- C4, amended.  The claim said `parseAspect` fails, with an error and
without crashing, exactly when a segment is not a valid number or the string
does not split on `':'` into exactly two segments.  What the code does:
it returns an error exactly when the first segment does not parse, or a `':'`
is present and the second segment does not parse; a string with no `':'`
whose whole text is a valid number makes it panic (index out of range on
`parts[1]`) instead of returning an error; and segments beyond the second are
ignored, so a string with two or more `':'` whose first two segments are
numbers succeeds. -/
theorem parseAspect_failure_modes (s : List Char) :
    (parseAspect s = .panic ↔ ':' ∉ s ∧ (goParseFloat s).isSome = true) ∧
    (parseAspect s = .err ↔
      (goParseFloat ((splitColon s).headI) = none ∨
        (':' ∈ s ∧ (goParseFloat ((splitColon s).headI)).isSome = true ∧
          goParseFloat ((splitColon s).getD 1 []) = none))) := by
  by_cases hc : ':' ∈ s
  · obtain ⟨p0, p1, rest, hsp⟩ := splitColon_two_of_mem hc
    unfold parseAspect
    rw [hsp]
    simp only [List.headI, List.getD_cons_succ, List.getD_cons_zero]
    cases h0 : goParseFloat p0 with
    | none => simp [hc, h0]
    | some a =>
      cases h1 : goParseFloat p1 with
      | none => simp [hc, h0, h1]
      | some b =>
        by_cases hab : b > a
        · simp [hc, h0, h1, hab]
        · simp [hc, h0, h1, hab]
  · have hsp : splitColon s = [s] := splitColon_eq_singleton_iff.mpr hc
    unfold parseAspect
    rw [hsp]
    simp only [List.headI, List.getD_nil, List.getD_cons_zero]
    cases h0 : goParseFloat s with
    | none => simp [hc, h0]
    | some a => simp [hc, h0]

/-- C4 counterexample, at concrete inputs: `"1:2:3"` has three segments, so
the claim says it must fail, but `parseAspect` succeeds on it; and `"16"` has
no `':'`, for which the claim says an error is returned without crashing, but
`parseAspect` panics. -/
theorem parseAspect_three_segments_ok :
    isOk (parseAspect ['1', ':', '2', ':', '3']) = true ∧
    parseAspect ['1', '6'] = .panic := by decide

/-- C5: for positive numeric segments A and B, `parseAspect` on `A:B` and on
`B:A` succeeds with the same value, which lies in the interval (0, 1]: the
smaller of the two parsed values divided by the larger. -/
theorem parseAspect_symm_unit (A B : List Char) (a b : ℚ)
    (hA : goParseFloat A = some a) (hB : goParseFloat B = some b)
    (hcA : ':' ∉ A) (hcB : ':' ∉ B) (ha : 0 < a) (hb : 0 < b) :
    parseAspect (A ++ ':' :: B) = parseAspect (B ++ ':' :: A) ∧
    ∃ r, parseAspect (A ++ ':' :: B) = .ok r ∧ 0 < r ∧ r ≤ 1 := by
  have hsAB : splitColon (A ++ ':' :: B) = [A, B] := by
    rw [splitColon_append hcA, splitColon_eq_singleton_iff.mpr hcB]
  have hsBA : splitColon (B ++ ':' :: A) = [B, A] := by
    rw [splitColon_append hcB, splitColon_eq_singleton_iff.mpr hcA]
  unfold parseAspect
  rw [hsAB, hsBA]
  simp only [hA, hB]
  constructor
  · rcases lt_trichotomy a b with h | h | h
    · rw [if_pos h, if_neg (not_lt.mpr h.le)]
    · subst h
      rfl
    · rw [if_neg (not_lt.mpr h.le), if_pos h]
  · rcases le_or_lt b a with h | h
    · exact ⟨b / a, by rw [if_neg (not_lt.mpr h)], div_pos hb (lt_of_lt_of_le hb h),
        div_le_one_of_le₀ h (le_of_lt (lt_of_lt_of_le hb h))⟩
    · exact ⟨a / b, by rw [if_pos h], div_pos ha (ha.trans h),
        div_le_one_of_le₀ h.le (le_of_lt (ha.trans h))⟩

/-- C5 witness, at `"16:9"` and `"9:16"`. -/
theorem parseAspect_symm_unit_witness :
    parseAspect (['1', '6'] ++ ':' :: ['9']) = parseAspect (['9'] ++ ':' :: ['1', '6']) ∧
    ∃ r, parseAspect (['1', '6'] ++ ':' :: ['9']) = .ok r ∧ 0 < r ∧ r ≤ 1 :=
  parseAspect_symm_unit ['1', '6'] ['9'] (mkRat 16 1) (mkRat 9 1)
    (by decide) (by decide) (by decide) (by decide) (by decide) (by decide)

/-! ## Letterboxing geometry (`convert`, src/main.go lines 93-109) -/

/-- A point of Go's `image` package. -/
structure Point where
  x : ℤ
  y : ℤ
deriving DecidableEq

/-- A rectangle of Go's `image` package, as its `Min` and `Max` corners. -/
structure Rectangle where
  min : Point
  max : Point
deriving DecidableEq

/-- Model of Go's `image.Rect(x0, y0, x1, y1)`: the constructor swaps each
coordinate pair given in reversed order. -/
def Rect (x0 y0 x1 y1 : ℤ) : Rectangle :=
  let xs := if x0 > x1 then (x1, x0) else (x0, x1)
  let ys := if y0 > y1 then (y1, y0) else (y0, y1)
  ⟨⟨xs.1, ys.1⟩, ⟨xs.2, ys.2⟩⟩

/-- Width `Dx` of a Go rectangle. -/
def Rectangle.dx (r : Rectangle) : ℤ := r.max.x - r.min.x

/-- Height `Dy` of a Go rectangle. -/
def Rectangle.dy (r : Rectangle) : ℤ := r.max.y - r.min.y

/-- Membership of a point in a rectangle, Go's `Point.In`: `Min` inclusive,
`Max` exclusive. -/
def Point.inRect (p : Point) (r : Rectangle) : Bool :=
  decide (r.min.x ≤ p.x ∧ p.x < r.max.x ∧ r.min.y ≤ p.y ∧ p.y < r.max.y)

/-- Go's integer division on `int`: truncation toward zero. -/
def goIntDiv (a b : ℤ) : ℤ := Int.tdiv a b

/-- Go's conversion `int(f)` of a `float64` to an `int`, on the exact
rational model of floating-point values: truncation toward zero, the
truncating division of the reduced numerator by the denominator. -/
def goTrunc (q : ℚ) : ℤ := Int.tdiv q.num q.den

/-- The geometry `convert` computes (src/main.go lines 93-109) from the
bounds of the decoded source image and the parsed ratio: source dimensions
`sw = sb.Max.X`, `sh = sb.Max.Y`; destination dimensions `dw = sw` and
`dh = int(float64(dw) * ratio)`; the canvas bounds `db` of
`image.NewRGBA(image.Rect(0, 0, dw, dh))`; and the placement rectangle
`dr = image.Rect(dw/2-(sw/2), dh/2-(sh/2), dw/2+dw, dh/2+sh)`. -/
structure ConvertGeom where
  sw : ℤ
  sh : ℤ
  dw : ℤ
  dh : ℤ
  db : Rectangle
  dr : Rectangle
deriving DecidableEq

/-- The dimension and rectangle computations of `convert`, line for line. -/
def convertGeom (sb : Rectangle) (ratio : ℚ) : ConvertGeom :=
  let sw := sb.max.x
  let sh := sb.max.y
  let dw := sw
  let dh := goTrunc ((dw : ℚ) * ratio)
  { sw := sw, sh := sh, dw := dw, dh := dh
    db := Rect 0 0 dw dh
    dr := Rect (goIntDiv dw 2 - goIntDiv sw 2) (goIntDiv dh 2 - goIntDiv sh 2)
        (goIntDiv dw 2 + dw) (goIntDiv dh 2 + sh) }

theorem convertGeom_def (sb : Rectangle) (ratio : ℚ) :
    convertGeom sb ratio =
      ⟨sb.max.x, sb.max.y, sb.max.x, goTrunc ((sb.max.x : ℚ) * ratio),
       Rect 0 0 sb.max.x (goTrunc ((sb.max.x : ℚ) * ratio)),
       Rect (goIntDiv sb.max.x 2 - goIntDiv sb.max.x 2)
         (goIntDiv (goTrunc ((sb.max.x : ℚ) * ratio)) 2 - goIntDiv sb.max.y 2)
         (goIntDiv sb.max.x 2 + sb.max.x)
         (goIntDiv (goTrunc ((sb.max.x : ℚ) * ratio)) 2 + sb.max.y)⟩ := rfl

theorem Rect_of_le {x0 y0 x1 y1 : ℤ} (hx : x0 ≤ x1) (hy : y0 ≤ y1) :
    Rect x0 y0 x1 y1 = ⟨⟨x0, y0⟩, ⟨x1, y1⟩⟩ := by
  simp [Rect, not_lt.mpr hx, not_lt.mpr hy]

theorem goTrunc_eq_floor {q : ℚ} (hq : 0 ≤ q) : goTrunc q = ⌊q⌋ := by
  unfold goTrunc
  rw [Rat.floor_def]
  exact Int.tdiv_eq_ediv (Rat.num_nonneg.mpr hq) (by positivity)

theorem goIntDiv_two_eq {a : ℤ} (h : 0 ≤ a) : goIntDiv a 2 = a / 2 :=
  Int.tdiv_eq_ediv h (by norm_num)

theorem goIntDiv_two_nonneg {a : ℤ} (h : 0 ≤ a) : 0 ≤ goIntDiv a 2 :=
  Int.tdiv_nonneg h (by norm_num)

/-- C1: for a decoded source image of width W (bounds with `Min = (0, 0)`,
as the standard decoders produce) and a positive ratio R returned by the
aspect parser, the canvas `convert` builds has width exactly W and height
⌊W × R⌋. -/
theorem convert_output_dims (s : List Char) (ratio : ℚ) (sb : Rectangle)
    (_hp : parseAspect s = .ok ratio) (hr : 0 < ratio)
    (hmin : sb.min = ⟨0, 0⟩) (hw : 0 ≤ sb.max.x) :
    (convertGeom sb ratio).db.dx = sb.dx ∧
    (convertGeom sb ratio).db.dy = ⌊(sb.dx : ℚ) * ratio⌋ := by
  have hdx : sb.dx = sb.max.x := by simp [Rectangle.dx, hmin]
  have hq : (0 : ℚ) ≤ (sb.max.x : ℚ) * ratio :=
    mul_nonneg (by exact_mod_cast hw) hr.le
  have hfl : goTrunc ((sb.max.x : ℚ) * ratio) = ⌊(sb.max.x : ℚ) * ratio⌋ :=
    goTrunc_eq_floor hq
  have hdh0 : 0 ≤ goTrunc ((sb.max.x : ℚ) * ratio) := by
    rw [hfl]
    exact Int.floor_nonneg.mpr hq
  rw [convertGeom_def]
  simp only [Rect_of_le hw hdh0]
  refine ⟨by simp [Rectangle.dx, hmin], ?_⟩
  simp [Rectangle.dy, Rectangle.dx, hmin, hfl]

/-- Concrete evaluation of the parser on the default aspect string "16:9". -/
theorem parseAspect_default_aspect :
    parseAspect ['1', '6', ':', '9'] = .ok (mkRat 9 16) := by
  have h : parseAspect ['1', '6', ':', '9'] = .ok (mkRat 9 1 / mkRat 16 1) := rfl
  rw [h]
  norm_num [Rat.mkRat_eq_div]

/-- C1 witness: a 100×50 source with the default ratio "16:9". -/
theorem convert_output_dims_witness :
    (convertGeom (Rect 0 0 100 50) (mkRat 9 16)).db.dx = (Rect 0 0 100 50).dx ∧
    (convertGeom (Rect 0 0 100 50) (mkRat 9 16)).db.dy =
      ⌊((Rect 0 0 100 50).dx : ℚ) * mkRat 9 16⌋ :=
  convert_output_dims ['1', '6', ':', '9'] (mkRat 9 16) (Rect 0 0 100 50)
    parseAspect_default_aspect (by decide) (by decide) (by decide)

/-- C2: the placement rectangle computed by `convert` is exactly
(left = dw/2 − sw/2, top = dh/2 − sh/2, right = dw/2 + dw,
bottom = dh/2 + sh) with Go's truncating integer division — the right and
bottom edges are dw/2 + dw and dh/2 + sh, not left + sw and top + sh. -/
theorem convert_placement_rect (sb : Rectangle) (ratio : ℚ)
    (hw : 0 ≤ sb.max.x) (hh : 0 ≤ sb.max.y) :
    (convertGeom sb ratio).dr =
      ⟨⟨goIntDiv (convertGeom sb ratio).dw 2 - goIntDiv (convertGeom sb ratio).sw 2,
        goIntDiv (convertGeom sb ratio).dh 2 - goIntDiv (convertGeom sb ratio).sh 2⟩,
       ⟨goIntDiv (convertGeom sb ratio).dw 2 + (convertGeom sb ratio).dw,
        goIntDiv (convertGeom sb ratio).dh 2 + (convertGeom sb ratio).sh⟩⟩ := by
  rw [convertGeom_def]
  exact Rect_of_le
    (by linarith [goIntDiv_two_nonneg hw])
    (by linarith [goIntDiv_two_nonneg hh])

/-- C2 witness: a 4×3 source with ratio 9/16. -/
theorem convert_placement_rect_witness :
    (convertGeom (Rect 0 0 4 3) (mkRat 9 16)).dr =
      ⟨⟨goIntDiv (convertGeom (Rect 0 0 4 3) (mkRat 9 16)).dw 2 -
          goIntDiv (convertGeom (Rect 0 0 4 3) (mkRat 9 16)).sw 2,
        goIntDiv (convertGeom (Rect 0 0 4 3) (mkRat 9 16)).dh 2 -
          goIntDiv (convertGeom (Rect 0 0 4 3) (mkRat 9 16)).sh 2⟩,
       ⟨goIntDiv (convertGeom (Rect 0 0 4 3) (mkRat 9 16)).dw 2 +
          (convertGeom (Rect 0 0 4 3) (mkRat 9 16)).dw,
        goIntDiv (convertGeom (Rect 0 0 4 3) (mkRat 9 16)).dh 2 +
          (convertGeom (Rect 0 0 4 3) (mkRat 9 16)).sh⟩⟩ :=
  convert_placement_rect (Rect 0 0 4 3) (mkRat 9 16) (by decide) (by decide)

/-- Visibility of a source pixel `q` in the output of `convert`: the canvas
point `p = dr.Min + (q − sb.Min)` that the second `draw.Draw` call maps `q`
to lies in the drawing region after clipping — `draw.Draw` clips the
rectangle `dr` to the canvas bounds `db` and to the translated source
bounds, and a clipped-away pixel is not drawn. -/
def sourcePixelVisible (sb : Rectangle) (ratio : ℚ) (q : Point) : Bool :=
  let g := convertGeom sb ratio
  let p : Point := ⟨g.dr.min.x + (q.x - sb.min.x), g.dr.min.y + (q.y - sb.min.y)⟩
  p.inRect g.dr && p.inRect g.db && q.inRect sb

/-- Concrete evaluation: a 1×1 source with the normalized default ratio 9/16
gets a 1×0 canvas and a placement rectangle from (0,0) to (1,1). -/
theorem convertGeom_1x1_916 :
    convertGeom (Rect 0 0 1 1) (mkRat 9 16) =
      ⟨1, 1, 1, 0, ⟨⟨0, 0⟩, ⟨1, 0⟩⟩, ⟨⟨0, 0⟩, ⟨1, 1⟩⟩⟩ := by
  have h : (((Rect 0 0 1 1).max.x : ℚ) * mkRat 9 16) = mkRat 9 16 := by
    norm_num [Rect, Rat.mkRat_eq_div]
  rw [convertGeom_def, h]
  decide

/-- C8 counterexample: with the normalized default ratio 9/16 and a 1×1
source image the canvas is 1×0, and the single source pixel (0,0), although
inside the source bounds, is not composited into the output — the conversion
crops it, contradicting "every source pixel appears in the output". -/
theorem convert_crops_tall_source :
    Point.inRect ⟨0, 0⟩ (Rect 0 0 1 1) = true ∧
    sourcePixelVisible (Rect 0 0 1 1) (mkRat 9 16) ⟨0, 0⟩ = false := by
  constructor
  · decide
  · simp only [sourcePixelVisible, convertGeom_1x1_916]
    decide

theorem Rect_dx_of_le {x0 x1 : ℤ} (hx : x0 ≤ x1) (y0 y1 : ℤ) :
    (Rect x0 y0 x1 y1).dx = x1 - x0 := by
  simp [Rect, Rectangle.dx, not_lt.mpr hx]

/-- C8, amended: the conversion never pads width — for every source image
and every ratio, the placement rectangle's left edge is 0 and the canvas
width equals the source width — and every source pixel appears in the
output provided the source height fits the computed canvas height
(sh ≤ dh).  The original claim's unconditional "every source pixel appears"
is false when sh > dh (see the counterexample): the top and bottom of the
source are then cropped. -/
theorem convert_width_unpadded_fit_visible (sb : Rectangle) (ratio : ℚ)
    (hmin : sb.min = ⟨0, 0⟩) (hw : 0 ≤ sb.max.x) (hh : 0 ≤ sb.max.y) :
    (convertGeom sb ratio).dr.min.x = 0 ∧
    (convertGeom sb ratio).db.dx = sb.dx ∧
    (∀ q : Point, sb.max.y ≤ (convertGeom sb ratio).dh → q.inRect sb = true →
      sourcePixelVisible sb ratio q = true) := by
  have hx0 : goIntDiv sb.max.x 2 - goIntDiv sb.max.x 2 ≤ goIntDiv sb.max.x 2 + sb.max.x := by
    linarith [goIntDiv_two_nonneg hw]
  have hdr : (convertGeom sb ratio).dr =
      ⟨⟨goIntDiv sb.max.x 2 - goIntDiv sb.max.x 2,
        goIntDiv (convertGeom sb ratio).dh 2 - goIntDiv sb.max.y 2⟩,
       ⟨goIntDiv sb.max.x 2 + sb.max.x,
        goIntDiv (convertGeom sb ratio).dh 2 + sb.max.y⟩⟩ :=
    Rect_of_le hx0 (by linarith [goIntDiv_two_nonneg hh])
  have hdbdx : (convertGeom sb ratio).db.dx = sb.max.x - 0 :=
    Rect_dx_of_le hw 0 (convertGeom sb ratio).dh
  refine ⟨by rw [hdr]; simp, by rw [hdbdx]; simp [Rectangle.dx, hmin], ?_⟩
  intro q hfit hq
  obtain ⟨hq1, hq2, hq3, hq4⟩ : 0 ≤ q.x ∧ q.x < sb.max.x ∧ 0 ≤ q.y ∧ q.y < sb.max.y := by
    simpa [Point.inRect, hmin] using hq
  have hdh : 0 ≤ (convertGeom sb ratio).dh := le_trans hh hfit
  have hdb : (convertGeom sb ratio).db =
      ⟨⟨0, 0⟩, ⟨sb.max.x, (convertGeom sb ratio).dh⟩⟩ :=
    Rect_of_le hw hdh
  simp only [sourcePixelVisible, hdr, hdb, hmin, Point.inRect, Bool.and_eq_true,
    decide_eq_true_eq]
  rw [goIntDiv_two_eq hw, goIntDiv_two_eq hh, goIntDiv_two_eq hdh]
  omega

/-- Concrete evaluation: a 2×1 source with ratio 2 gets a 2×4 canvas and a
placement rectangle from (0,2) to (3,3). -/
theorem convertGeom_2x1_2 :
    convertGeom (Rect 0 0 2 1) (mkRat 2 1) =
      ⟨2, 1, 2, 4, ⟨⟨0, 0⟩, ⟨2, 4⟩⟩, ⟨⟨0, 2⟩, ⟨3, 3⟩⟩⟩ := by
  have h : (((Rect 0 0 2 1).max.x : ℚ) * mkRat 2 1) = mkRat 4 1 := by
    norm_num [Rect, Rat.mkRat_eq_div]
  rw [convertGeom_def, h]
  decide

/-- C8 witness: a 2×1 source with ratio 2, whose height 1 fits the computed
canvas height 4, with the visibility clause applied at its source pixel
(1,0). -/
theorem convert_width_unpadded_fit_visible_witness :
    (convertGeom (Rect 0 0 2 1) (mkRat 2 1)).dr.min.x = 0 ∧
    (convertGeom (Rect 0 0 2 1) (mkRat 2 1)).db.dx = (Rect 0 0 2 1).dx ∧
    sourcePixelVisible (Rect 0 0 2 1) (mkRat 2 1) ⟨1, 0⟩ = true :=
  ⟨(convert_width_unpadded_fit_visible (Rect 0 0 2 1) (mkRat 2 1)
      (by decide) (by decide) (by decide)).1,
    (convert_width_unpadded_fit_visible (Rect 0 0 2 1) (mkRat 2 1)
      (by decide) (by decide) (by decide)).2.1,
    (convert_width_unpadded_fit_visible (Rect 0 0 2 1) (mkRat 2 1)
      (by decide) (by decide) (by decide)).2.2 ⟨1, 0⟩
      (by rw [convertGeom_2x1_2]; decide) (by decide)⟩

/-! ## Pixel-level drawing (`convert`, src/main.go lines 101-119) -/

/-- An 8-bit RGBA color, as stored by Go's `image.RGBA`. -/
structure RGBA where
  r : ℕ
  g : ℕ
  b : ℕ
  a : ℕ
deriving DecidableEq

/-- An in-memory raster image: bounds and a pixel function (meaningful
inside the bounds). -/
structure GoImage where
  bounds : Rectangle
  pix : Point → RGBA

/-- The background color `convert` picks (src/main.go lines 111-115), as the
RGBA value `color.Black` respectively `color.White` converts to when drawn
onto an `image.RGBA` with `draw.Src`: opaque black (0,0,0,255), or opaque
white (255,255,255,255) when the white flag is set. -/
def bg (white : Bool) : RGBA :=
  if white then ⟨255, 255, 255, 255⟩ else ⟨0, 0, 0, 255⟩

/-- Model of `image.NewRGBA(r)`: a fresh canvas, every pixel the zero
color (0,0,0,0). -/
def newRGBA (r : Rectangle) : GoImage :=
  { bounds := r, pix := fun _ => ⟨0, 0, 0, 0⟩ }

/-- Model of `image.Uniform`: an infinite-extent solid color, whose
`Bounds()` is `Rect(-1e9, -1e9, 1e9, 1e9)`. -/
def uniform (c : RGBA) : GoImage :=
  { bounds := Rect (-1000000000) (-1000000000) 1000000000 1000000000
    pix := fun _ => c }

/-- Model of `draw.Draw(dst, r, src, sp, draw.Src)` at the pixel level.  The
library clips `r` to the destination bounds and to the source bounds
translated by `r.Min − sp`; inside the clipped region the destination pixel
is replaced — `draw.Src`, no blending — by the source pixel at
`sp + (p − r.Min)`; outside it the destination pixel is unchanged.  The
source-bounds clip is stated through the mapped source point, which is
equivalent. -/
def drawSrc (dst : GoImage) (r : Rectangle) (src : GoImage) (sp : Point) : GoImage :=
  { bounds := dst.bounds
    pix := fun p =>
      if p.inRect r && p.inRect dst.bounds &&
          (Point.mk (sp.x + (p.x - r.min.x)) (sp.y + (p.y - r.min.y))).inRect src.bounds
      then src.pix ⟨sp.x + (p.x - r.min.x), sp.y + (p.y - r.min.y)⟩
      else dst.pix p }

/-- The image `convert` builds (src/main.go lines 101-119): a fresh RGBA
canvas with bounds `db`, first wholly painted with the background color
(`draw.Draw(dst, db, image.Uniform{bg}, image.ZP, draw.Src)`), then the
source drawn at the placement rectangle
(`draw.Draw(dst, dr, src, src.Bounds().Min, draw.Src)`). -/
def convertImage (src : GoImage) (white : Bool) (ratio : ℚ) : GoImage :=
  drawSrc
    (drawSrc (newRGBA (convertGeom src.bounds ratio).db)
      (convertGeom src.bounds ratio).db (uniform (bg white)) ⟨0, 0⟩)
    (convertGeom src.bounds ratio).dr src src.bounds.min

/-- Membership in the composited source region of the output: the set of
canvas points the second `draw.Draw` writes a source pixel to. -/
def inComposite (src : GoImage) (ratio : ℚ) (p : Point) : Bool :=
  p.inRect (convertGeom src.bounds ratio).dr &&
    p.inRect (convertGeom src.bounds ratio).db &&
    (Point.mk (src.bounds.min.x + (p.x - (convertGeom src.bounds ratio).dr.min.x))
      (src.bounds.min.y + (p.y - (convertGeom src.bounds ratio).dr.min.y))).inRect src.bounds

theorem drawSrc_pix_of_in (dst : GoImage) (r : Rectangle) (src : GoImage) (sp p : Point)
    (h : (p.inRect r && p.inRect dst.bounds &&
      (Point.mk (sp.x + (p.x - r.min.x)) (sp.y + (p.y - r.min.y))).inRect src.bounds) = true) :
    (drawSrc dst r src sp).pix p =
      src.pix ⟨sp.x + (p.x - r.min.x), sp.y + (p.y - r.min.y)⟩ := by
  simp only [drawSrc]
  rw [h]
  simp

theorem drawSrc_pix_of_notin (dst : GoImage) (r : Rectangle) (src : GoImage) (sp p : Point)
    (h : (p.inRect r && p.inRect dst.bounds &&
      (Point.mk (sp.x + (p.x - r.min.x)) (sp.y + (p.y - r.min.y))).inRect src.bounds) = false) :
    (drawSrc dst r src sp).pix p = dst.pix p := by
  simp only [drawSrc]
  rw [h]
  simp

/-- C6: the canvas is first filled entirely with the opaque background color
— black (0,0,0,255) when the white flag is false, white (255,255,255,255)
when it is true — and the source is then drawn over it with source-copy
semantics, so every canvas pixel outside the composited source region equals
the background color.  The size hypotheses keep the canvas inside the ±10⁹
bounds of `image.Uniform`, which every real image satisfies. -/
theorem convert_background_pixels (src : GoImage) (white : Bool) (ratio : ℚ)
    (hw : 0 ≤ src.bounds.max.x)
    (hwB : src.bounds.max.x ≤ 1000000) (hr0 : 0 ≤ ratio) (hrB : ratio ≤ 1000) :
    bg false = ⟨0, 0, 0, 255⟩ ∧ bg true = ⟨255, 255, 255, 255⟩ ∧
    (∀ p : Point, p.inRect (convertGeom src.bounds ratio).db = true →
      (drawSrc (newRGBA (convertGeom src.bounds ratio).db)
        (convertGeom src.bounds ratio).db (uniform (bg white)) ⟨0, 0⟩).pix p = bg white) ∧
    (∀ p : Point, p.inRect (convertGeom src.bounds ratio).db = true →
      inComposite src ratio p = false →
      (convertImage src white ratio).pix p = bg white) := by
  have hq : (0 : ℚ) ≤ (src.bounds.max.x : ℚ) * ratio :=
    mul_nonneg (by exact_mod_cast hw) hr0
  have hdhdef : (convertGeom src.bounds ratio).dh =
      goTrunc ((src.bounds.max.x : ℚ) * ratio) := rfl
  have hdh0 : 0 ≤ (convertGeom src.bounds ratio).dh := by
    rw [hdhdef, goTrunc_eq_floor hq]
    exact Int.floor_nonneg.mpr hq
  have hdb : (convertGeom src.bounds ratio).db =
      ⟨⟨0, 0⟩, ⟨src.bounds.max.x, (convertGeom src.bounds ratio).dh⟩⟩ :=
    Rect_of_le hw hdh0
  have hdhB : (convertGeom src.bounds ratio).dh ≤ 1000000000 := by
    have h1 : ((convertGeom src.bounds ratio).dh : ℚ) ≤ (src.bounds.max.x : ℚ) * ratio := by
      rw [hdhdef, goTrunc_eq_floor hq]
      exact Int.floor_le _
    have h2 : (src.bounds.max.x : ℚ) * ratio ≤ 1000000 * 1000 :=
      mul_le_mul (by exact_mod_cast hwB) hrB hr0 (by norm_num)
    have h3 : ((convertGeom src.bounds ratio).dh : ℚ) ≤ 1000000000 := by linarith
    exact_mod_cast h3
  have huni : (uniform (bg white)).bounds =
      ⟨⟨-1000000000, -1000000000⟩, ⟨1000000000, 1000000000⟩⟩ :=
    Rect_of_le (by norm_num) (by norm_num)
  have hfill : ∀ p : Point, p.inRect (convertGeom src.bounds ratio).db = true →
      (drawSrc (newRGBA (convertGeom src.bounds ratio).db)
        (convertGeom src.bounds ratio).db (uniform (bg white)) ⟨0, 0⟩).pix p = bg white := by
    intro p hp
    obtain ⟨hp1, hp2, hp3, hp4⟩ :
        0 ≤ p.x ∧ p.x < src.bounds.max.x ∧
          0 ≤ p.y ∧ p.y < (convertGeom src.bounds ratio).dh := by
      simpa [hdb, Point.inRect] using hp
    refine drawSrc_pix_of_in _ _ _ _ _ ?_
    simp only [Bool.and_eq_true]
    refine ⟨⟨hp, hp⟩, ?_⟩
    rw [huni, hdb]
    simp only [Point.inRect, decide_eq_true_eq]
    omega
  refine ⟨rfl, rfl, hfill, ?_⟩
  intro p hp hcomp
  have hstep : (convertImage src white ratio).pix p =
      (drawSrc (newRGBA (convertGeom src.bounds ratio).db)
        (convertGeom src.bounds ratio).db (uniform (bg white)) ⟨0, 0⟩).pix p :=
    drawSrc_pix_of_notin _ _ _ _ _ hcomp
  rw [hstep]
  exact hfill p hp

/-- A concrete 2×1 source image used by the C6 witness. -/
def witSrc : GoImage := ⟨Rect 0 0 2 1, fun _ => ⟨9, 9, 9, 255⟩⟩

theorem witSrc_geom :
    convertGeom witSrc.bounds (mkRat 2 1) =
      ⟨2, 1, 2, 4, ⟨⟨0, 0⟩, ⟨2, 4⟩⟩, ⟨⟨0, 2⟩, ⟨3, 3⟩⟩⟩ :=
  convertGeom_2x1_2

/-- C6 witness: on a 2×1 source with ratio 2 and a black background, the
canvas pixel (0,0) lies above the centered source strip and is background
black. -/
theorem convert_background_pixels_witness :
    (convertImage witSrc false (mkRat 2 1)).pix ⟨0, 0⟩ = bg false :=
  (convert_background_pixels witSrc false (mkRat 2 1)
      (by decide) (by decide) (by decide) (by norm_num [Rat.mkRat_eq_div])).2.2.2
    ⟨0, 0⟩ (by rw [witSrc_geom]; decide)
    (by simp only [inComposite, witSrc_geom]; decide)

/-! ## The skip check (`skip`, src/main.go lines 183-205) and the
per-task dispatch decision (`main`, src/main.go lines 59-71) -/

/-- Outcome of one `os.Stat` call: success with the file's modification
time, a clean not-found error, or any other error (permissions, disk). -/
inductive StatResult where
  | ok (mtime : ℤ)
  | notExist
  | err
deriving DecidableEq

/-- Model of `filepath.Join(dir, path)` for a nonempty `dir` with no
trailing separator: `dir ++ "/" ++ path`.  The lexical cleaning `Join`
performs besides the concatenation is not modelled; no claim depends on
it, the joined path is only used as a file-system key. -/
def joinPath (dir path : List Char) : List Char := dir ++ '/' :: path

/-- The return value of `skip`: `nil` (proceed), the propagated source-stat
error, the "already exist" error marking a newer destination, or the
propagated destination-stat error that is neither nil nor not-found. -/
inductive SkipResult where
  | nil
  | srcStatErr
  | alreadyExist
  | destStatErr
deriving DecidableEq

/-- Model of `skip` (src/main.go lines 183-205) over a file-system view
`fs` mapping each path to its stat outcome.  Stat the destination
`join(dir, path)`: not-found returns nil; on success, stat the source,
propagating any error (`e`, including a source not-found), and return the
"already exist" error when the source's mtime is strictly before the
destination's, nil otherwise; any other destination-stat error falls
through to the final `return err`. -/
def skip (fs : List Char → StatResult) (dir path : List Char) : SkipResult :=
  match fs (joinPath dir path) with
  | .notExist => .nil
  | .ok mdest =>
    match fs path with
    | .ok msrc => if msrc < mdest then .alreadyExist else .nil
    | _ => .srcStatErr
  | .err => .destStatErr

/-- The observable outcome of one dispatched task (the closure at
src/main.go lines 59-71): whether `convert` ran, the change applied to the
shared `total` counter, and whether the "already processed" warning was
logged. -/
structure TaskOutcome where
  converted : Bool
  totalDelta : ℤ
  loggedSkip : Bool
deriving DecidableEq

/-- Model of the dispatched closure's decision (src/main.go lines 59-71),
given the result of the skip check: when `skip` returned a non-nil error
and force is not set, it logs the warning, decrements `total` and returns
without converting; otherwise it runs `convert` (whose own failure would
terminate the process and is outside this decision). -/
def runTask (force : Bool) (skipRes : SkipResult) : TaskOutcome :=
  if skipRes ≠ SkipResult.nil ∧ force = false then ⟨false, -1, true⟩
  else ⟨true, 0, false⟩

/-- C3: with stats succeeding, the skip check decides exactly as specified:
no destination — do not skip; destination present and the source strictly
older — skip with the "already exist" error; destination present and the
source not strictly older — do not skip. -/
theorem skip_policy_decision (fs : List Char → StatResult) (dir path : List Char)
    (mdest msrc : ℤ) :
    (fs (joinPath dir path) = .notExist → skip fs dir path = .nil) ∧
    (fs (joinPath dir path) = .ok mdest → fs path = .ok msrc →
      ((msrc < mdest → skip fs dir path = .alreadyExist) ∧
        (¬msrc < mdest → skip fs dir path = .nil))) := by
  refine ⟨fun h => by simp [skip, h], fun hdest hsrc => ⟨fun hlt => ?_, fun hge => ?_⟩⟩
  · simp [skip, hdest, hsrc, hlt]
  · simp [skip, hdest, hsrc, hge]

/-- A two-file file-system view for the skip witness: the destination
"out/a" has mtime 5, the source "a" has mtime 3, nothing else exists. -/
def witFs : List Char → StatResult := fun p =>
  if p = joinPath ['o', 'u', 't'] ['a'] then .ok 5
  else if p = ['a'] then .ok 3 else .notExist

/-- C3 witness: on that file system the source is strictly older than its
destination and the skip check returns the "already exist" error. -/
theorem skip_policy_decision_witness :
    skip witFs ['o', 'u', 't'] ['a'] = .alreadyExist :=
  ((skip_policy_decision witFs ['o', 'u', 't'] ['a'] 5 3).2
    (by decide) (by decide)).1 (by decide)

/-- C7: a stat failure other than not-found is propagated out of the skip
check (a destination-stat error as the fall-through `return err`, a
source-stat error as the early `return e`), and the dispatcher's closure,
force unset, then logs the warning and returns without converting,
decrementing the running total — the task is neither processed nor counted. -/
theorem skip_stat_error_uncounted (fs : List Char → StatResult)
    (dir path : List Char) (mdest : ℤ) :
    (fs (joinPath dir path) = .err → skip fs dir path = .destStatErr) ∧
    (fs (joinPath dir path) = .ok mdest → fs path = .err →
      skip fs dir path = .srcStatErr) ∧
    (∀ r : SkipResult, r ≠ .nil → runTask false r = ⟨false, -1, true⟩) := by
  refine ⟨fun h => by simp [skip, h], fun hdest hsrc => by simp [skip, hdest, hsrc],
    fun r hr => by simp [runTask, hr]⟩

/-- C7 witness: a file system whose destination stat fails with a
non-not-found error. -/
theorem skip_stat_error_uncounted_witness :
    skip (fun _ => StatResult.err) ['o'] ['a'] = .destStatErr ∧
    runTask false (skip (fun _ => StatResult.err) ['o'] ['a']) = ⟨false, -1, true⟩ :=
  ⟨(skip_stat_error_uncounted (fun _ => StatResult.err) ['o'] ['a'] 0).1 rfl,
    (skip_stat_error_uncounted (fun _ => StatResult.err) ['o'] ['a'] 0).2.2
      (skip (fun _ => StatResult.err) ['o'] ['a']) (by decide)⟩

/-! ## The encoder (`write`, src/main.go lines 126-141) -/

/-- A file-system side effect of the encoder: `os.Create(path)` — create
the file or truncate an existing one at `path`, never creating parent
directories — the `jpeg.Encode` of the whole image at the given quality
into the created file, or an `f.Close()` call. -/
inductive FileOp where
  | create (path : List Char)
  | encodeJPEG (quality : ℕ)
  | close
deriving DecidableEq

/-- The error `write` returns, wrapped as in the source: a creation error
or an encoding error. -/
inductive WriteError where
  | creating
  | encoding
deriving DecidableEq

/-- Model of `write` (src/main.go lines 126-141) as the ordered trace of
file operations it performs together with its returned error, given whether
the create and the encode succeed.  On a create failure the wrapped error
is returned at once; otherwise the image is encoded as JPEG at quality 90
into the file, a failure again wrapped and returned.  The source contains
no `f.Close()` call on any path, so no `close` ever enters the trace. -/
def write (createOk encodeOk : Bool) (path : List Char) :
    List FileOp × Option WriteError :=
  if createOk then
    if encodeOk then ([.create path, .encodeJPEG 90], none)
    else ([.create path, .encodeJPEG 90], some .encoding)
  else ([.create path], some .creating)

/-- C9 (the divergence): on the successful path `write` creates or
truncates the destination and encodes the JPEG at fixed quality 90, but on
no path — success or failure — does it ever close the created file; the
claim's "and closes the file" does not hold of the code. -/
theorem write_trace_no_close (createOk encodeOk : Bool) (path : List Char) :
    write true true path = ([.create path, .encodeJPEG 90], none) ∧
    FileOp.close ∉ (write createOk encodeOk path).1 := by
  refine ⟨rfl, ?_⟩
  cases createOk <;> cases encodeOk <;> simp [write]

/-! ## The bounded worker pool (`main`, src/main.go lines 52-74) -/

/-- State of the dispatcher's worker pool: tasks not yet submitted, units
of work in flight (tokens held in the semaphore channel), and completed
units. -/
structure PoolState where
  pending : ℕ
  inFlight : ℕ
  completed : ℕ
deriving DecidableEq

/-- Modelled from the spec: the semaphore admission gate
(`semaphore.Semaphore` from the go-sync dependency, not part of this
repository's files) is a channel of capacity N; `Run` sends a token —
blocking while the channel is full, i.e. while N units are in flight —
then starts the unit, and the token is received back when the unit
finishes.  One step either submits a pending task when a token is free or
finishes an in-flight one. -/
inductive PoolStep (N : ℕ) : PoolState → PoolState → Prop where
  | submit {s : PoolState} : 0 < s.pending → s.inFlight < N →
      PoolStep N s ⟨s.pending - 1, s.inFlight + 1, s.completed⟩
  | finish {s : PoolState} : 0 < s.inFlight →
      PoolStep N s ⟨s.pending, s.inFlight - 1, s.completed + 1⟩

/-- States the dispatcher can reach: from all tasks pending and none in
flight, by pool steps. -/
inductive PoolReachable (N total : ℕ) : PoolState → Prop where
  | init : PoolReachable N total ⟨total, 0, 0⟩
  | step {s t : PoolState} : PoolReachable N total s → PoolStep N s t →
      PoolReachable N total t

/-- C10: in every reachable state of a run with concurrency N, at most N
units of work are in flight, and while tasks remain pending a submission
step is possible exactly when fewer than N are in flight — submitting
blocks only when N workers are already busy. -/
theorem pool_inflight_bounded (N total : ℕ) (s : PoolState)
    (h : PoolReachable N total s) :
    s.inFlight ≤ N ∧
    (0 < s.pending →
      ((∃ t, PoolStep N s t ∧ t.inFlight = s.inFlight + 1) ↔ s.inFlight < N)) := by
  constructor
  · induction h with
    | init => exact Nat.zero_le N
    | step hr hstep ih =>
      cases hstep with
      | submit hp hn => exact hn
      | finish hf => exact le_trans (Nat.sub_le _ _) ih
  · intro hp
    constructor
    · rintro ⟨t, hstep, hfl⟩
      cases hstep with
      | submit hp' hn => exact hn
      | finish hf =>
        simp only at hfl
        omega
    · intro hn
      exact ⟨_, PoolStep.submit hp hn, rfl⟩

/-- C10 witness: the initial state of a run of 100 tasks at concurrency 4. -/
theorem pool_inflight_bounded_witness :
    (⟨100, 0, 0⟩ : PoolState).inFlight ≤ 4 ∧
    (0 < (⟨100, 0, 0⟩ : PoolState).pending →
      ((∃ t, PoolStep 4 ⟨100, 0, 0⟩ t ∧
          t.inFlight = (⟨100, 0, 0⟩ : PoolState).inFlight + 1) ↔
        (⟨100, 0, 0⟩ : PoolState).inFlight < 4)) :=
  pool_inflight_bounded 4 100 ⟨100, 0, 0⟩ PoolReachable.init
end Letterbox
